import Mathlib

/-!
# Verification of the AFK orthomosaic processing orchestrator

A shallow embedding, in Lean 4, of the core logic of the AFK drone-mapping
service: the NodeODM asset resolver and download validator
(`apps/api/src/services/nodeodm.ts`), the georeference resolver
(`apps/api/src/services/geotiff.ts`), the COG format optimizer
(`apps/api/src/services/cog.ts`), the tile coverage analyzer
(`apps/api/src/routes/projects.ts`), and the processing orchestrator together
with its HTTP trigger route (`apps/api/src/services/processing.ts`,
`apps/api/src/routes/projects.ts` images/process routes).

Pure functions of the TypeScript source are translated to Lean functions on
`List Char` / `Nat` / `Int` / `Rat`; stateful code is translated to explicit
state passing over a project-record type plus an event trace; fallible code
returns `Except` or pairs an error option with the resulting state.  External
collaborators (the NodeODM HTTP service, proj4, the GDAL binaries, the
filesystem) are supplied as explicit environment parameters.
-/

namespace AFK

/-! ## Character-list string primitives

The TypeScript source works with JavaScript strings (`includes`, `toLowerCase`,
regular expressions anchored with `$`, `trim`).  Lean's `String` library
functions are defined through UTF-8 byte positions and do not reduce in the
kernel, so the corresponding operations are defined here directly on
`List Char`.  All strings appearing in the analyzed code are ASCII. -/

/-- `chPrefix p l` is true iff `p` is a prefix of `l` (JS `startsWith`). -/
def chPrefix : List Char → List Char → Bool
  | [], _ => true
  | _ :: _, [] => false
  | a :: as, b :: bs => a == b && chPrefix as bs

/-- `chInfix p l` is true iff `p` occurs as a contiguous substring of `l`
(JS `String.prototype.includes`). -/
def chInfix (p : List Char) : List Char → Bool
  | [] => p.isEmpty
  | b :: bs => chPrefix p (b :: bs) || chInfix p bs

/-- `strIncludes s pat`: JS `s.includes(pat)`. -/
def strIncludes (s pat : String) : Bool :=
  chInfix pat.toList s.toList

/-- ASCII lowercasing of one character, as JS `toLowerCase` acts on the ASCII
range (all strings compared in the source are ASCII). -/
def lowerChar (c : Char) : Char :=
  if 'A' ≤ c ∧ c ≤ 'Z' then Char.ofNat (c.toNat + 32) else c

/-- ASCII lowercasing of a string (JS `s.toLowerCase()` on ASCII input). -/
def strLower (s : String) : String :=
  String.mk (s.toList.map lowerChar)

/-- `strEndsWith s suffix`: JS `/suffix$/.test(s)` for a literal suffix. -/
def strEndsWith (s suffix : String) : Bool :=
  chPrefix suffix.toList.reverse s.toList.reverse

/-- JS whitespace characters relevant to `String.prototype.trim` on the ASCII
range. -/
def isWs (c : Char) : Bool :=
  c == ' ' || c == '\t' || c == '\n' || c == '\r'

/-- `asset.trim().length > 0` ⟺ the string has a non-whitespace character. -/
def hasNonWs (s : String) : Bool :=
  s.toList.any (fun c => !(isWs c))

/-! ## A stable insertion sort

JavaScript's `Array.prototype.sort` is required (since ES2019) to be a stable
sort driven by a comparator.  `insertIn keep a l` inserts `a` after every
element `b` of `l` with `keep b a = true` (i.e. for which the comparator does
not strictly order `a` before `b`); folding from the left reproduces a stable
sort. -/

def insertIn (keep : α → α → Bool) (a : α) : List α → List α
  | [] => [a]
  | b :: l => if keep b a then b :: insertIn keep a l else a :: b :: l

def stableSortBy (keep : α → α → Bool) (l : List α) : List α :=
  l.foldl (fun acc a => insertIn keep a acc) []

/-! ## Asset resolver (`apps/api/src/services/nodeodm.ts`)

`rankOrthophotoAssets` scores each asset name by the cumulative presence of the
markers `odm_orthophoto` (+3), `orthophoto` (+2) and `ortho` (+1) in its
lowercased form, keeps the names that match `/ortho/i` and `/\.(tif|tiff)$/i`,
and sorts them by descending score with JavaScript's stable sort; if that
yields nothing it falls back to every `.tif`/`.tiff` name.
`resolveOrthophotoAssets` adds the final fallback to a fixed list of canonical
path guesses. -/

/-- `/\.(tif|tiff)$/i.test(asset)`. -/
def hasRasterExt (asset : String) : Bool :=
  strEndsWith (strLower asset) ".tif" || strEndsWith (strLower asset) ".tiff"

/-- The `scoreAsset` closure of `rankOrthophotoAssets`. -/
def scoreAsset (asset : String) : Nat :=
  let lower := strLower asset
  (if strIncludes lower "odm_orthophoto" then 3 else 0)
    + (if strIncludes lower "orthophoto" then 2 else 0)
    + (if strIncludes lower "ortho" then 1 else 0)

/-- Statement-side marker tier of an asset name: 3 for the exact canonical
marker `odm_orthophoto`, 2 for the generic marker `orthophoto`, 1 for the broad
category marker `ortho`, 0 for none. -/
def markerTier (asset : String) : Nat :=
  let lower := strLower asset
  if strIncludes lower "odm_orthophoto" then 3
  else if strIncludes lower "orthophoto" then 2
  else if strIncludes lower "ortho" then 1
  else 0

/-- `assets.map(String).filter(asset => asset.trim().length > 0)`. -/
def normalizedOf (assets : List String) : List String :=
  assets.filter hasNonWs

/-- The pre-sort filter for ortho candidates:
`/ortho/i.test(asset) && /\.(tif|tiff)$/i.test(asset)`. -/
def isOrthoCandidate (asset : String) : Bool :=
  strIncludes (strLower asset) "ortho" && hasRasterExt asset

/-- Comparator-induced order of the stable sort
`(a, b) => scoreAsset(b) - scoreAsset(a)`: `b` stays before the incoming `a`
unless the comparator strictly orders `a` first. -/
def keepByScore (b a : String) : Bool :=
  decide (scoreAsset a ≤ scoreAsset b)

def rankOrthophotoAssets (assets : List String) : List String :=
  let normalized := normalizedOf assets
  let orthoCandidates := stableSortBy keepByScore (normalized.filter isOrthoCandidate)
  if orthoCandidates.isEmpty then normalized.filter hasRasterExt
  else orthoCandidates

/-- The fixed list of well-known canonical path guesses of
`resolveOrthophotoAssets`. -/
def fallbackOrthophotoPaths : List String :=
  [ "odm_orthophoto/odm_orthophoto.tif",
    "odm_orthophoto/odm_orthophoto.tiff",
    "odm_orthophoto.tif",
    "odm_orthophoto.tiff",
    "orthophoto.tif",
    "orthophoto.tiff" ]

def resolveOrthophotoAssets (assets : List String) : List String :=
  let ranked := rankOrthophotoAssets assets
  if ranked.isEmpty then fallbackOrthophotoPaths
  else ranked

/-! ### Download validator (`downloadTaskAsset`) -/

/-- The observable parts of the axios response to
`GET /task/:uuid/download/:asset` (status 200–499; a 5xx status makes axios
itself throw before any file is touched, with the same observable outcome as
the ≥400 branch). `written` is the number of bytes the response stream
delivers into the temporary file; `streamOk` is whether the
`pipeline(res.data, createWriteStream(tmp))` promise resolves. -/
structure DlResp where
  status : Nat
  contentType : String
  contentLength : Nat
  written : Nat
  streamOk : Bool

/-- The slice of the filesystem `downloadTaskAsset` touches: the destination
file and the `.tmp` sibling, each `none` when absent and `some size` when
present. -/
structure DlFs where
  dest : Option Nat
  tmp : Option Nat
  deriving DecidableEq, Repr

/-- `downloadTaskAsset` of `nodeodm.ts` (lines 207–235): header validation,
write to `outputPath + '.tmp'`, minimum-size sanity check, rename into place.
Returns `some message` paired with the final filesystem on a thrown error and
`none` on success. -/
def downloadTaskAsset (resp : DlResp) (fs0 : DlFs) : Option String × DlFs :=
  if 400 ≤ resp.status ∨ strIncludes resp.contentType "application/json" = true
      ∨ strIncludes resp.contentType "text" = true then
    (some "NodeODM download error", fs0)
  else
    let fs1 : DlFs := { fs0 with tmp := some resp.written }
    if resp.streamOk = false then
      (some "stream error", fs1)
    else if resp.written < 1024
        ∨ (0 < resp.contentLength ∧ resp.written < min resp.contentLength 1024) then
      (some "Downloaded asset is too small", { fs1 with tmp := none })
    else
      (none, { dest := some resp.written, tmp := none })

/-! ## Georeference resolver (`apps/api/src/services/geotiff.ts`)

Coordinates are modelled over `Rat`.  The proj4 library is an external
dependency; a corner transformer `proj : String → Rat × Rat → Option (Rat × Rat)`
is passed in as a parameter (`none` models a thrown transform error). -/

structure GBounds where
  minX : Rat
  minY : Rat
  maxX : Rat
  maxY : Rat
  deriving DecidableEq, Repr

/-- `looksLikeWgs84` of `geotiff.ts` (lines 116–121). -/
def looksLikeWgs84 (b : GBounds) : Bool :=
  decide ((-180 : Rat) ≤ b.minX ∧ b.maxX ≤ 180 ∧ (-90 : Rat) ≤ b.minY ∧ b.maxY ≤ 90)

/-- `registerProjection` of `geotiff.ts` (lines 28–57): the returned CRS name,
or `none` for an unresolved code. -/
def registerProjection (epsgCode : Nat) : Option String :=
  if epsgCode = 4326 then some "EPSG:4326"
  else if 32601 ≤ epsgCode ∧ epsgCode ≤ 32660 then some ("EPSG:" ++ toString epsgCode)
  else if 32701 ≤ epsgCode ∧ epsgCode ≤ 32760 then some ("EPSG:" ++ toString epsgCode)
  else if epsgCode = 3857 then some "EPSG:3857"
  else none

/-- `reprojectBoundsToWgs84` of `geotiff.ts` (lines 82–113): identity for the
geographic CRS, otherwise all four corners are transformed and the min/max of
the transformed corners taken; a transform error yields `none`. -/
def reprojectBoundsToWgs84 (proj : String → Rat × Rat → Option (Rat × Rat))
    (b : GBounds) (sourceCrs : String) : Option GBounds :=
  if sourceCrs = "EPSG:4326" then some b
  else
    match proj sourceCrs (b.minX, b.minY), proj sourceCrs (b.maxX, b.minY),
        proj sourceCrs (b.maxX, b.maxY), proj sourceCrs (b.minX, b.maxY) with
    | some c1, some c2, some c3, some c4 =>
        some { minX := min (min c1.1 c2.1) (min c3.1 c4.1),
               minY := min (min c1.2 c2.2) (min c3.2 c4.2),
               maxX := max (max c1.1 c2.1) (max c3.1 c4.1),
               maxY := max (max c1.2 c2.2) (max c3.2 c4.2) }
    | _, _, _, _ => none

/-- The CRS/bounds resolution of `getGeoTiffInfo` (`geotiff.ts` lines 147–176):
given the extracted EPSG code (`none` when the geo-keys yield nothing) and the
native bounding box, produce the `(crs, boundsWgs84)` pair. -/
def resolveGeo (proj : String → Rat × Rat → Option (Rat × Rat))
    (epsg : Option Nat) (bounds : Option GBounds) : Option String × Option GBounds :=
  match epsg with
  | some code =>
    let crs := registerProjection code
    match crs, bounds with
    | some c, some b => (some c, reprojectBoundsToWgs84 proj b c)
    | _, _ => (crs, none)
  | none =>
    match bounds with
    | some b =>
      if looksLikeWgs84 b then (some "EPSG:4326", some b)
      else (none, some b)
    | none => (none, none)

/-! ## Format optimizer (`apps/api/src/services/cog.ts`)

`ensureCog` builds the sibling output path
`path.join(parsed.dir, parsed.name + '.cog.tif')`.  `path.parse` is modelled on
character lists: the base name is everything after the last `/`, and the
extension is everything from the last `.` of the base name, except that a dot
in the leading position yields no extension (dotfiles) and `'..'` is special.
The model recomposes `path.join(parsed.dir, x)` as the original leading
segment followed by `x`; Node's `join` additionally normalizes redundant
separators inside the directory part, which never changes whether the output
path equals the input path. -/

/-- Split a path into everything up to and including the last `/` and the base
name after it. -/
def lastSlashSplit (p : List Char) : List Char × List Char :=
  let r := p.reverse
  ((r.dropWhile (fun c => !(c == '/'))).reverse, (r.takeWhile (fun c => !(c == '/'))).reverse)

/-- Split a base name into `parsed.name` and `parsed.ext` following Node's
`path.parse`: the extension starts at the last dot, a leading dot alone marks
a dotfile with no extension, and `'..'` has no extension. -/
def lastDotSplit (b : List Char) : List Char × List Char :=
  if b = ['.', '.'] then (b, []) else
  match (b.reverse).dropWhile (fun c => !(c == '.')) with
  | [] => (b, [])
  | [_] => (b, [])
  | _ :: c :: rest =>
    ((c :: rest).reverse, '.' :: ((b.reverse).takeWhile (fun c => !(c == '.'))).reverse)

/-- `path.join(parsed.dir, parsed.name + '.cog.tif')` of `ensureCog`
(`cog.ts` lines 39–40). -/
def cogOutputPath (p : String) : String :=
  String.mk ((lastSlashSplit p.toList).1
    ++ (lastDotSplit (lastSlashSplit p.toList).2).1 ++ ".cog.tif".toList)

/-- External effects of one `ensureCog` run. -/
inductive CogCall
  | translate (input output : String)
  | renameCall
  | unlinkOut
  deriving DecidableEq, Repr

/-- Outcomes of the external collaborators of `ensureCog`. -/
structure CogEnv where
  enableCog : Bool
  translateOk : Bool
  renameOk : Bool
  deriving DecidableEq, Repr

/-- The `try` block of `ensureCog` (`cog.ts` lines 42–51): collision guard,
`gdal_translate` invocation, atomic rename of the optimized copy onto the
original.  Errors propagate to the surrounding catch. -/
def ensureCogBody (env : CogEnv) (inputPath : String) :
    Except String (String × Bool) × List CogCall :=
  let outputPath := cogOutputPath inputPath
  if outputPath = inputPath then
    (Except.error "COG output path matches input path; refusing to overwrite", [])
  else if env.translateOk = false then
    (Except.error "gdal_translate failed", [CogCall.translate inputPath outputPath])
  else if env.renameOk = false then
    (Except.error "rename failed",
      [CogCall.translate inputPath outputPath, CogCall.renameCall])
  else
    (Except.ok (inputPath, true),
      [CogCall.translate inputPath outputPath, CogCall.renameCall])

/-- `ensureCog` (`cog.ts` lines 34–58): early return when COG conversion is
disabled; otherwise run the body and convert any error into
`(inputPath, converted := false)` after unlinking partial output.  The result
pair is `(path, converted)`. -/
def ensureCog (env : CogEnv) (inputPath : String) : (String × Bool) × List CogCall :=
  if env.enableCog = false then ((inputPath, false), [])
  else
    match ensureCogBody env inputPath with
    | (Except.ok r, cs) => (r, cs)
    | (Except.error _, cs) => ((inputPath, false), cs ++ [CogCall.unlinkOut])

/-! ## Tile coverage analyzer (`apps/api/src/routes/projects.ts` lines 71–137)

The tile tree on disk is abstracted as a list of `(zoom, sizes)` pairs: one
entry per numeric zoom-level directory, carrying the byte sizes of the `.png`
tile files beneath it (non-`.png` entries are skipped by the source before any
size is observed).  `getTileZoomRange` sorts the levels ascending, scans each
level for its largest tile and for any tile above the 2048-byte threshold, and
assembles the `{min, max, best}` result. -/

def sizeThreshold : Nat := 2048

/-- One step of the `if (stats.size > maxSizeForZoom)` update. -/
def foldMaxStep (m : Int) (x : Nat) : Int :=
  if m < (x : Int) then (x : Int) else m

/-- Largest observed tile size at one level, starting from the `-1` sentinel. -/
def maxTileSize (sizes : List Nat) : Int :=
  sizes.foldl foldMaxStep (-1)

/-- Whether a level has at least one tile strictly above the threshold. -/
def levelHasData (sizes : List Nat) : Bool :=
  sizes.any (fun s => sizeThreshold < s)

/-- The per-zoom scanning loop: accumulates the valid zoom list and the
size-based best pick `(bestZoom, bestSize)` with strict improvement (ties keep
the earlier level). -/
def zoomLoop : List (Nat × List Nat) → List Nat → Nat → Int → List Nat × Nat × Int
  | [], vz, bz, bs => (vz, bz, bs)
  | (z, sizes) :: rest, vz, bz, bs =>
    let m := maxTileSize sizes
    let vz' := if levelHasData sizes then vz ++ [z] else vz
    if bs < m then zoomLoop rest vz' z m else zoomLoop rest vz' bz bs

/-- Last element of a list with a default (`zoomLevels[zoomLevels.length - 1]`
on a list known to be non-empty). -/
def lastD : List Nat → Nat → Nat
  | [], d => d
  | [a], _ => a
  | _ :: b :: l, d => lastD (b :: l) d

/-- Ascending numeric sort of the zoom-level directory names. -/
def sortByZoom (tree : List (Nat × List Nat)) : List (Nat × List Nat) :=
  stableSortBy (fun b a => decide (b.1 ≤ a.1)) tree

/-- `getTileZoomRange`: `none` when the tile directory has no zoom levels or no
tiles at all; the `{min, max, best}` triple otherwise. -/
def getTileZoomRange (tree : List (Nat × List Nat)) : Option (Nat × Nat × Nat) :=
  let sorted := sortByZoom tree
  match sorted with
  | [] => none
  | (z0, _) :: _ =>
    let out := zoomLoop sorted [] z0 (-1)
    let vz := out.1
    let bz := out.2.1
    let bs := out.2.2
    match vz with
    | [] =>
      if (-1 : Int) < bs then
        some (z0, lastD (sorted.map Prod.fst) z0, bz)
      else none
    | v0 :: _ =>
      some (v0, lastD vz v0, if vz.contains bz then bz else lastD vz v0)

/-- The valid zoom levels in scan order. -/
def validZoomsOf (tree : List (Nat × List Nat)) : List Nat :=
  ((sortByZoom tree).filter (fun e => levelHasData e.2)).map Prod.fst

/-! ## Orchestrator (`apps/api/src/services/processing.ts`) and trigger route
(`apps/api/src/routes/projects.ts` router.post `/:id/process`)

The project row is reduced to the columns the claims speak about.  Database
updates and remote NodeODM calls are recorded in an event trace.  The status
polling loop runs on a fixed 10-second interval under a 3-hour wall-clock
ceiling; with the remote calls idealized as instantaneous, the `k`-th poll
happens at elapsed time `k * POLL_INTERVAL`, so the `Date.now()` guard admits
exactly `MAX_POLL_TIME / POLL_INTERVAL` polls, which is the fuel of
`pollLoopAux`. -/

inductive Status
  | created | uploading | processing | ready | failed
  deriving DecidableEq, Repr

/-- The project record columns the orchestrator and the trigger route read or
write (`bounds` reduced to presence). -/
structure ProjectRec where
  status : Status
  imageCount : Nat
  odmTaskUuid : Option String
  orthomosaicPath : Option String
  boundsSet : Bool
  errorMessage : Option String
  deriving DecidableEq, Repr

/-- Database updates and remote NodeODM calls of one orchestrator run, in
order. -/
inductive Event
  | setProcessing
  | createTask
  | uploadImage (name : String)
  | setTaskUuid
  | commitTask
  | downloadSeq
  | setReady
  | setFailed (msg : String)
  deriving DecidableEq, Repr

/-- Externally determined outcomes of one run: the upload directory listing,
the NodeODM status code returned by the `i`-th poll, whether the orthomosaic
download sequence succeeds, the COG converter environment, whether
`gdal2tiles` succeeds, and the GeoTIFF metadata of the produced raster
(`geoOk = false` models a throwing reader, absorbed by the bounds
`try`/`catch`). -/
structure PipeEnv where
  files : List String
  statuses : Nat → Nat
  downloadOk : Bool
  cogEnv : CogEnv
  tilesOk : Bool
  geoOk : Bool
  geoEpsg : Option Nat
  geoBounds : Option GBounds
  proj : String → Rat × Rat → Option (Rat × Rat)

def POLL_INTERVAL : Nat := 10000
def MAX_POLL_TIME : Nat := 3 * 60 * 60 * 1000

/-- Number of polls the `Date.now() - startTime < MAX_POLL_TIME` guard admits
(the `k`-th poll happens at elapsed time `k * POLL_INTERVAL`). -/
def maxPolls : Nat := MAX_POLL_TIME / POLL_INTERVAL

inductive PollOutcome
  | completed | odmFailed | odmCanceled | timedOut
  deriving DecidableEq, Repr

/-- The polling loop of `startProcessing` (`processing.ts` lines 59–81): stop
on status code 40 (completed), throw on 30 (failed) and 50 (canceled),
continue on anything else, and time out when the wall-clock ceiling is
reached. -/
def pollLoopAux (statuses : Nat → Nat) : Nat → Nat → PollOutcome
  | 0, _ => PollOutcome.timedOut
  | fuel + 1, i =>
    let s := statuses i
    if s = 40 then PollOutcome.completed
    else if s = 30 then PollOutcome.odmFailed
    else if s = 50 then PollOutcome.odmCanceled
    else pollLoopAux statuses fuel (i + 1)

def pollLoop (statuses : Nat → Nat) : PollOutcome :=
  pollLoopAux statuses maxPolls 0

/-- `/\.(jpg|jpeg|png|tiff|tif)$/i.test(f)`. -/
def isImageFile (f : String) : Bool :=
  strEndsWith (strLower f) ".jpg" || strEndsWith (strLower f) ".jpeg"
    || strEndsWith (strLower f) ".png" || strEndsWith (strLower f) ".tiff"
    || strEndsWith (strLower f) ".tif"

/-- `handleCompletion` (`processing.ts` lines 91–144): download the
orthomosaic, optionally convert to COG, generate tiles, extract WGS84 bounds
(errors absorbed), then persist `ready` with `orthomosaic_path` and the bounds
when available.  The stored `error_message` is not touched. -/
def handleCompletion (projectId : String) (r2 : ProjectRec) (env : PipeEnv) :
    Except String ProjectRec × List Event :=
  let orthoPath := "outputs/" ++ projectId ++ "/orthophoto.tif"
  if env.downloadOk = false then
    (Except.error "Failed to download orthomosaic", [Event.downloadSeq])
  else
    let finalPath := (ensureCog env.cogEnv orthoPath).1.1
    if env.tilesOk = false then
      (Except.error "gdal2tiles exited with a non-zero code", [Event.downloadSeq])
    else
      let boundsWgs84 :=
        if env.geoOk then (resolveGeo env.proj env.geoEpsg env.geoBounds).2 else none
      (Except.ok { r2 with
          status := Status.ready,
          orthomosaicPath := some finalPath,
          boundsSet := boundsWgs84.isSome },
        [Event.downloadSeq, Event.setReady])

/-- `startProcessing` (`processing.ts` lines 19–89): mark the project
`processing`, list and count the upload directory's image files, create and
feed the NodeODM task, poll to completion, and run completion handling; the
top-level catch converts any thrown error into the `failed` transition with
the error's message. -/
def startProcessing (projectId : String) (r : ProjectRec) (env : PipeEnv) :
    ProjectRec × List Event :=
  let r1 := { r with status := Status.processing }
  let imageFiles := env.files.filter isImageFile
  if imageFiles.length < 2 then
    ({ r1 with
        status := Status.failed,
        errorMessage := some "At least 2 images are required" },
      [Event.setProcessing, Event.setFailed "At least 2 images are required"])
  else
    let r2 := { r1 with odmTaskUuid := some "odm-task" }
    let calls := Event.setProcessing :: Event.createTask :: Event.setTaskUuid ::
      (imageFiles.map Event.uploadImage ++ [Event.commitTask])
    match pollLoop env.statuses with
    | PollOutcome.completed =>
      match handleCompletion projectId r2 env with
      | (Except.ok r3, cs) => (r3, calls ++ cs)
      | (Except.error msg, cs) =>
        ({ r2 with status := Status.failed, errorMessage := some msg },
          calls ++ cs ++ [Event.setFailed msg])
    | PollOutcome.odmFailed =>
      ({ r2 with
          status := Status.failed,
          errorMessage := some "NodeODM processing failed" },
        calls ++ [Event.setFailed "NodeODM processing failed"])
    | PollOutcome.odmCanceled =>
      ({ r2 with
          status := Status.failed,
          errorMessage := some "NodeODM processing was canceled" },
        calls ++ [Event.setFailed "NodeODM processing was canceled"])
    | PollOutcome.timedOut =>
      ({ r2 with
          status := Status.failed,
          errorMessage := some "Processing timed out" },
        calls ++ [Event.setFailed "Processing timed out"])

inductive RouteResult
  | notFound | alreadyProcessing | alreadyProcessed | tooFewImages | started
  deriving DecidableEq, Repr

/-- `router.post('/:id/process')` (`routes/projects.ts` in the images/process
router, lines 234–269): look up the project, reject `processing` and `ready`
and fewer than two counted images, otherwise fire `startProcessing` in the
background.  The returned record is the project row once the background run
has finished. -/
def processRoute (projectId : String) (pRow : Option ProjectRec) (env : PipeEnv) :
    RouteResult × Option ProjectRec × List Event :=
  match pRow with
  | none => (RouteResult.notFound, none, [])
  | some p =>
    if p.status = Status.processing then (RouteResult.alreadyProcessing, some p, [])
    else if p.status = Status.ready then (RouteResult.alreadyProcessed, some p, [])
    else if p.imageCount < 2 then (RouteResult.tooFewImages, some p, [])
    else
      let out := startProcessing projectId p env
      (RouteResult.started, some out.1, out.2)

/-! ## Concrete scenarios and stated invariants -/

/-- The terminal-state invariant the spec asserts in its forward direction:
`ready` records carry an orthomosaic path and `failed` records carry an error
message. -/
def recInv (p : ProjectRec) : Prop :=
  (p.status = Status.ready → p.orthomosaicPath ≠ none)
    ∧ (p.status = Status.failed → p.errorMessage ≠ none)

/-- An environment in which every external collaborator succeeds and NodeODM
reports the task completed on the first poll. -/
def goodEnv : PipeEnv where
  files := ["a.jpg", "b.jpg"]
  statuses := fun _ => 40
  downloadOk := true
  cogEnv := { enableCog := false, translateOk := true, renameOk := true }
  tilesOk := true
  geoOk := true
  geoEpsg := none
  geoBounds := some { minX := 10, minY := 20, maxX := 11, maxY := 21 }
  proj := fun _ _ => none

/-- The NodeODM status sequence `[queued, running, running, completed]`
(codes `[10, 20, 20, 40]`), continued with `running` beyond the observed
polls. -/
def demoStatuses (i : Nat) : Nat :=
  [10, 20, 20, 40].getD i 20

/-- `goodEnv` driven by the status sequence `[queued, running, running,
completed]`. -/
def seqEnv : PipeEnv :=
  { goodEnv with statuses := demoStatuses }

/-- A failed project record carrying a stale error message, as produced by an
earlier failed run (two counted images, task id attached). -/
def failedRec : ProjectRec where
  status := Status.failed
  imageCount := 2
  odmTaskUuid := some "odm-task"
  orthomosaicPath := none
  boundsSet := false
  errorMessage := some "NodeODM processing failed"

/-- A fresh `uploading` record with two counted images. -/
def uploadingRec : ProjectRec where
  status := Status.uploading
  imageCount := 2
  odmTaskUuid := none
  orthomosaicPath := none
  boundsSet := false
  errorMessage := none

/-- `goodEnv` with a single image in the upload directory. -/
def fewEnv : PipeEnv :=
  { goodEnv with files := ["only.jpg"] }

/-- `goodEnv` with NodeODM reporting the task failed (code 30) on every
poll. -/
def failEnv : PipeEnv :=
  { goodEnv with statuses := fun _ => 30 }

/-- `goodEnv` with NodeODM reporting `running` (code 20) forever, so the
wall-clock ceiling is reached. -/
def timeoutEnv : PipeEnv :=
  { goodEnv with statuses := fun _ => 20 }

/-- A synthetic tile tree: levels 14–22 all have a tile file on disk, only
levels 16–18 have one above the 2048-byte threshold, and the single largest
tile sits at level 17. -/
def demoTree : List (Nat × List Nat) :=
  [ (14, [100]), (15, [100]), (16, [2500]), (17, [3000]), (18, [2600]),
    (19, [500]), (20, [2000]), (21, [40]), (22, [10]) ]

/-! ## String primitive lemmas -/

theorem chPrefix_iff (p l : List Char) : chPrefix p l = true ↔ p <+: l := by
  induction p generalizing l with
  | nil => simp [chPrefix]
  | cons a as ih =>
    cases l with
    | nil => simp [chPrefix]
    | cons b bs =>
      simp only [chPrefix, Bool.and_eq_true, beq_iff_eq, ih]
      constructor
      · rintro ⟨rfl, t, rfl⟩
        exact ⟨t, rfl⟩
      · rintro ⟨t, h⟩
        injection h with h1 h2
        exact ⟨h1, t, h2⟩

theorem chInfix_iff (p l : List Char) : chInfix p l = true ↔ p <:+: l := by
  induction l with
  | nil =>
    simp only [chInfix, List.isEmpty_iff]
    constructor
    · rintro rfl; exact List.infix_rfl
    · intro h; simpa using h.length_le
  | cons b bs ih =>
    simp only [chInfix, Bool.or_eq_true, chPrefix_iff, ih, List.infix_cons_iff]

theorem strIncludes_iff (s pat : String) :
    strIncludes s pat = true ↔ pat.toList <:+: s.toList :=
  chInfix_iff _ _

/-- Transitivity of containment transported to `strIncludes`: if `pat₁` occurs
inside `pat₂` and `pat₂` occurs inside `s` then `pat₁` occurs inside `s`. -/
theorem strIncludes_trans {s pat₁ pat₂ : String}
    (h₁ : strIncludes pat₂ pat₁ = true) (h₂ : strIncludes s pat₂ = true) :
    strIncludes s pat₁ = true := by
  rw [strIncludes_iff] at *
  exact h₁.trans h₂

/-! ## Stable sort lemmas -/

theorem mem_insertIn (keep : α → α → Bool) (a x : α) (l : List α) :
    x ∈ insertIn keep a l ↔ x = a ∨ x ∈ l := by
  induction l with
  | nil => simp [insertIn]
  | cons b l ih =>
    by_cases h : keep b a = true
    · rw [insertIn, if_pos h]
      simp only [List.mem_cons, ih]
      tauto
    · rw [insertIn, if_neg h]
      simp only [List.mem_cons]

theorem pairwise_insertIn (keep : α → α → Bool)
    (htot : ∀ x y, keep x y = true ∨ keep y x = true)
    (htrans : ∀ x y z, keep x y = true → keep y z = true → keep x z = true)
    (a : α) (l : List α) (h : l.Pairwise (fun x y => keep x y = true)) :
    (insertIn keep a l).Pairwise (fun x y => keep x y = true) := by
  induction l with
  | nil => simp [insertIn]
  | cons b l ih =>
    rcases List.pairwise_cons.mp h with ⟨hb, hl⟩
    by_cases hba : keep b a = true
    · rw [insertIn, if_pos hba]
      refine List.pairwise_cons.mpr ⟨?_, ih hl⟩
      intro x hx
      rcases (mem_insertIn keep a x l).mp hx with rfl | hx
      · exact hba
      · exact hb x hx
    · rw [insertIn, if_neg hba]
      have hab : keep a b = true := (htot a b).resolve_right (fun hc => hba hc)
      refine List.pairwise_cons.mpr ⟨?_, h⟩
      intro x hx
      rcases List.mem_cons.mp hx with rfl | hx
      · exact hab
      · exact htrans a b x hab (hb x hx)

theorem mem_stableSortBy (keep : α → α → Bool) (l : List α) (x : α) :
    x ∈ stableSortBy keep l ↔ x ∈ l := by
  suffices h : ∀ acc, x ∈ l.foldl (fun acc a => insertIn keep a acc) acc ↔ x ∈ acc ∨ x ∈ l by
    simpa using h []
  induction l with
  | nil => intro acc; simp
  | cons a l ih =>
    intro acc
    rw [List.foldl_cons, ih, mem_insertIn]
    simp only [List.mem_cons]
    tauto

theorem pairwise_stableSortBy (keep : α → α → Bool)
    (htot : ∀ x y, keep x y = true ∨ keep y x = true)
    (htrans : ∀ x y z, keep x y = true → keep y z = true → keep x z = true)
    (l : List α) :
    (stableSortBy keep l).Pairwise (fun x y => keep x y = true) := by
  suffices h : ∀ acc, acc.Pairwise (fun x y => keep x y = true) →
      (l.foldl (fun acc a => insertIn keep a acc) acc).Pairwise (fun x y => keep x y = true) by
    exact h [] (by simp)
  induction l with
  | nil => intro acc hacc; simpa using hacc
  | cons a l ih =>
    intro acc hacc
    rw [List.foldl_cons]
    exact ih _ (pairwise_insertIn keep htot htrans a acc hacc)

theorem stableSortBy_eq_nil_iff (keep : α → α → Bool) (l : List α) :
    stableSortBy keep l = [] ↔ l = [] := by
  constructor
  · intro h
    cases l with
    | nil => rfl
    | cons a l =>
      exfalso
      have : a ∈ stableSortBy keep (a :: l) :=
        (mem_stableSortBy keep (a :: l) a).mpr (by simp)
      rw [h] at this
      simp at this
  · rintro rfl; rfl

/-! ## Helper lemmas on path splitting -/

theorem dropWhile_head_false {α : Type} {q : α → Bool} {l : List α} {x : α} {xs : List α}
    (h : l.dropWhile q = x :: xs) : q x = false := by
  induction l with
  | nil => simp at h
  | cons a l ih =>
    rw [List.dropWhile_cons] at h
    by_cases ha : q a = true
    · rw [if_pos ha] at h
      exact ih h
    · rw [if_neg ha] at h
      injection h with h1 _
      subst h1
      exact Bool.eq_false_iff.mpr ha

theorem lastSlashSplit_append (p : List Char) :
    (lastSlashSplit p).1 ++ (lastSlashSplit p).2 = p := by
  unfold lastSlashSplit
  rw [← List.reverse_append, List.takeWhile_append_dropWhile, List.reverse_reverse]

theorem lastDotSplit_append (b : List Char) :
    (lastDotSplit b).1 ++ (lastDotSplit b).2 = b := by
  unfold lastDotSplit
  by_cases hdd : b = ['.', '.']
  · rw [if_pos hdd]
    simp
  · rw [if_neg hdd]
    rcases hd : (b.reverse).dropWhile (fun c => !(c == '.')) with _ | ⟨x, _ | ⟨c, rest⟩⟩
    · simp
    · simp
    · simp only
      have hx : (!(x == '.')) = false := dropWhile_head_false (q := fun c => !(c == '.')) hd
      have hx' : x = '.' := by
        simpa using hx
      have hsplit : (b.reverse).takeWhile (fun c => !(c == '.')) ++ x :: c :: rest = b.reverse := by
        rw [← hd, List.takeWhile_append_dropWhile]
      calc (c :: rest).reverse ++ '.' :: ((b.reverse).takeWhile (fun c => !(c == '.'))).reverse
          = (c :: rest).reverse ++ [x] ++ ((b.reverse).takeWhile (fun c => !(c == '.'))).reverse := by
            rw [hx']; simp
        _ = (x :: c :: rest).reverse ++ ((b.reverse).takeWhile (fun c => !(c == '.'))).reverse := by
            simp
        _ = ((b.reverse).takeWhile (fun c => !(c == '.')) ++ x :: c :: rest).reverse := by
            rw [List.reverse_append]
        _ = b := by rw [hsplit, List.reverse_reverse]

theorem lastDotSplit_ext (b : List Char) :
    (lastDotSplit b).2 = [] ∨ ∃ t, (lastDotSplit b).2 = '.' :: t ∧ '.' ∉ t := by
  unfold lastDotSplit
  by_cases hdd : b = ['.', '.']
  · rw [if_pos hdd]
    exact Or.inl rfl
  · rw [if_neg hdd]
    rcases hd : (b.reverse).dropWhile (fun c => !(c == '.')) with _ | ⟨x, _ | ⟨c, rest⟩⟩
    · exact Or.inl rfl
    · exact Or.inl rfl
    · refine Or.inr ⟨((b.reverse).takeWhile (fun c => !(c == '.'))).reverse, rfl, ?_⟩
      intro hmem
      have : ('.' : Char) ∈ (b.reverse).takeWhile (fun c => !(c == '.')) :=
        List.mem_reverse.mp hmem
      have := List.mem_takeWhile_imp this
      simp at this

/-- The computed sibling output path of `ensureCog` never collides with the
input path: `path.parse` strips only the final extension, so the extension of
the input base name can never be the two-dot suffix `.cog.tif`. -/
theorem cogOutputPath_ne (p : String) : cogOutputPath p ≠ p := by
  intro h
  have hlist : (lastSlashSplit p.toList).1
      ++ (lastDotSplit (lastSlashSplit p.toList).2).1 ++ ".cog.tif".toList = p.toList :=
    congrArg String.data h
  have hp : (lastSlashSplit p.toList).1 ++ (lastSlashSplit p.toList).2 = p.toList :=
    lastSlashSplit_append p.toList
  have hb : (lastDotSplit (lastSlashSplit p.toList).2).1
      ++ (lastDotSplit (lastSlashSplit p.toList).2).2 = (lastSlashSplit p.toList).2 :=
    lastDotSplit_append (lastSlashSplit p.toList).2
  have hext : (lastDotSplit (lastSlashSplit p.toList).2).2 = ".cog.tif".toList := by
    have hL : (lastSlashSplit p.toList).1
        ++ ((lastDotSplit (lastSlashSplit p.toList).2).1 ++ ".cog.tif".toList) = p.toList := by
      rw [← List.append_assoc]
      exact hlist
    have hR : (lastSlashSplit p.toList).1
        ++ ((lastDotSplit (lastSlashSplit p.toList).2).1
          ++ (lastDotSplit (lastSlashSplit p.toList).2).2) = p.toList := by
      rw [hb]
      exact hp
    have h3 := List.append_cancel_left (hL.trans hR.symm)
    exact (List.append_cancel_left h3).symm
  rcases lastDotSplit_ext (lastSlashSplit p.toList).2 with hnil | ⟨t, ht, hdot⟩
  · rw [hnil] at hext
    exact absurd hext.symm (by decide)
  · rw [ht] at hext
    injection hext with _ ht2
    exact hdot (ht2 ▸ (by decide : ('.' : Char) ∈ "cog.tif".toList))

/-! ## Orchestrator lemmas -/

set_option maxRecDepth 40000

theorem handleCompletion_ok {pid : String} {r2 : ProjectRec} {env : PipeEnv}
    {r3 : ProjectRec} {cs : List Event}
    (h : handleCompletion pid r2 env = (Except.ok r3, cs)) :
    r3.status = Status.ready ∧ r3.orthomosaicPath ≠ none
      ∧ r3.errorMessage = r2.errorMessage := by
  unfold handleCompletion at h
  split_ifs at h
  · exact absurd h (by simp)
  · exact absurd h (by simp)
  · simp only [Prod.mk.injEq, Except.ok.injEq] at h
    obtain ⟨h1, -⟩ := h
    subst h1
    simp
  · simp only [Prod.mk.injEq, Except.ok.injEq] at h
    obtain ⟨h1, -⟩ := h
    subst h1
    simp

theorem handleCompletion_events (pid : String) (r2 : ProjectRec) (env : PipeEnv) :
    Event.downloadSeq ∈ (handleCompletion pid r2 env).2 := by
  unfold handleCompletion
  split_ifs <;> simp

theorem startProcessing_inv (pid : String) (r : ProjectRec) (env : PipeEnv) :
    recInv (startProcessing pid r env).1 := by
  simp only [startProcessing]
  split
  · exact ⟨fun h => by simp at h, fun _ => by simp⟩
  · split
    · split
      · rename_i r3 cs heq
        obtain ⟨h1, h2, -⟩ := handleCompletion_ok heq
        exact ⟨fun _ => h2, fun hf => by rw [h1] at hf; simp at hf⟩
      · exact ⟨fun h => by simp at h, fun _ => by simp⟩
    · exact ⟨fun h => by simp at h, fun _ => by simp⟩
    · exact ⟨fun h => by simp at h, fun _ => by simp⟩
    · exact ⟨fun h => by simp at h, fun _ => by simp⟩

theorem processRoute_started_iff (pid : String) (p : ProjectRec) (env : PipeEnv) :
    (processRoute pid (some p) env).1 = RouteResult.started ↔
      p.status ≠ Status.processing ∧ p.status ≠ Status.ready ∧ 2 ≤ p.imageCount := by
  simp only [processRoute]
  split_ifs with h1 h2 h3 <;> simp_all

theorem processRoute_inv {pid : String} {p : ProjectRec} {env : PipeEnv} {q : ProjectRec}
    (hp : recInv p) (hq : (processRoute pid (some p) env).2.1 = some q) : recInv q := by
  simp only [processRoute] at hq
  split_ifs at hq <;> simp only [Option.some.injEq] at hq
  · exact hq ▸ hp
  · exact hq ▸ hp
  · exact hq ▸ hp
  · exact hq ▸ startProcessing_inv pid p env

theorem setProcessing_mem (pid : String) (r : ProjectRec) (env : PipeEnv) :
    Event.setProcessing ∈ (startProcessing pid r env).2 := by
  simp only [startProcessing]
  split
  · simp
  · split
    · split <;> simp
    · simp
    · simp
    · simp

theorem startProcessing_validation {pid : String} {r : ProjectRec} {env : PipeEnv}
    (h : (env.files.filter isImageFile).length < 2) :
    startProcessing pid r env =
      ({ r with
          status := Status.failed,
          errorMessage := some "At least 2 images are required" },
        [Event.setProcessing, Event.setFailed "At least 2 images are required"]) := by
  simp only [startProcessing]
  rw [if_pos h]

theorem downloadSeq_iff (pid : String) (r : ProjectRec) (env : PipeEnv)
    (h : ¬ (env.files.filter isImageFile).length < 2) :
    (Event.downloadSeq ∈ (startProcessing pid r env).2 ↔
      pollLoop env.statuses = PollOutcome.completed) := by
  simp only [startProcessing]
  rw [if_neg h]
  split
  · rename_i heq
    rw [heq]
    split
    · rename_i r3 cs heq2
      have hcs : Event.downloadSeq ∈ cs := by
        have h0 := handleCompletion_events pid
          { status := Status.processing, imageCount := r.imageCount,
            odmTaskUuid := some "odm-task", orthomosaicPath := r.orthomosaicPath,
            boundsSet := r.boundsSet, errorMessage := r.errorMessage } env
        rw [heq2] at h0
        exact h0
      simp [hcs]
    · rename_i msg cs heq2
      have hcs : Event.downloadSeq ∈ cs := by
        have h0 := handleCompletion_events pid
          { status := Status.processing, imageCount := r.imageCount,
            odmTaskUuid := some "odm-task", orthomosaicPath := r.orthomosaicPath,
            boundsSet := r.boundsSet, errorMessage := r.errorMessage } env
        rw [heq2] at h0
        exact h0
      simp [hcs]
  · rename_i heq
    rw [heq]
    simp
  · rename_i heq
    rw [heq]
    simp
  · rename_i heq
    rw [heq]
    simp

theorem startProcessing_pollFailed (pid : String) (r : ProjectRec) (env : PipeEnv)
    (ho : pollLoop env.statuses = PollOutcome.odmFailed
      ∨ pollLoop env.statuses = PollOutcome.odmCanceled) :
    (startProcessing pid r env).1.status = Status.failed := by
  simp only [startProcessing]
  split
  · rfl
  · rcases ho with ho | ho <;> rw [ho]

theorem startProcessing_timeout (pid : String) (r : ProjectRec) (env : PipeEnv)
    (ht : pollLoop env.statuses = PollOutcome.timedOut) :
    (startProcessing pid r env).1.status = Status.failed
      ∧ (¬ (env.files.filter isImageFile).length < 2 →
          (startProcessing pid r env).1.errorMessage = some "Processing timed out") := by
  simp only [startProcessing]
  split
  · rename_i himg
    exact ⟨rfl, fun hni => absurd himg hni⟩
  · rw [ht]
    exact ⟨rfl, fun _ => rfl⟩

theorem pollAux_zero (st : Nat → Nat) (i : Nat) :
    pollLoopAux st 0 i = PollOutcome.timedOut := rfl

theorem pollAux_completed (st : Nat → Nat) (fuel i : Nat) (h : st i = 40) :
    pollLoopAux st (fuel + 1) i = PollOutcome.completed := by
  simp [pollLoopAux, h]

theorem pollAux_odmFailed (st : Nat → Nat) (fuel i : Nat) (h : st i = 30) :
    pollLoopAux st (fuel + 1) i = PollOutcome.odmFailed := by
  simp [pollLoopAux, h]

theorem pollAux_odmCanceled (st : Nat → Nat) (fuel i : Nat) (h : st i = 50) :
    pollLoopAux st (fuel + 1) i = PollOutcome.odmCanceled := by
  simp [pollLoopAux, h]

theorem pollAux_step (st : Nat → Nat) (fuel i : Nat)
    (h40 : st i ≠ 40) (h30 : st i ≠ 30) (h50 : st i ≠ 50) :
    pollLoopAux st (fuel + 1) i = pollLoopAux st fuel (i + 1) := by
  simp [pollLoopAux, h40, h30, h50]

/-! ## Claims C1–C4 -/

/-- C1, counterexample: the claimed invariant "`error_message` is non-null if
and only if `status == failed`" fails on a reachable record.  A failed project
with a stored error message passes the trigger route's guards; the re-run
completes, and the record ends with `status = ready` while the stale
`error_message` is still set (neither `startProcessing` nor `handleCompletion`
ever clears `error_message`). -/
theorem claim_C1_counterexample :
    failedRec.errorMessage ≠ none
      ∧ (processRoute "p1" (some failedRec) goodEnv).1 = RouteResult.started
      ∧ (processRoute "p1" (some failedRec) goodEnv).2.1.map ProjectRec.status
          = some Status.ready
      ∧ (processRoute "p1" (some failedRec) goodEnv).2.1.map ProjectRec.errorMessage
          = some (some "NodeODM processing failed") := by
  decide

/-- C1 (amended): the forward implications hold and are preserved — after any
`startProcessing` run the record satisfies `status = ready →
orthomosaic_path ≠ null` and `status = failed → error_message ≠ null`, and the
trigger route preserves this invariant; the reverse direction
(`error_message ≠ null → status = failed`) is the part refuted by the
counterexample, because re-triggering a failed project leaves its stale
`error_message` in place. -/
theorem claim_C1 :
    (∀ pid r env, recInv (startProcessing pid r env).1)
      ∧ (∀ pid p env q, recInv p →
          (processRoute pid (some p) env).2.1 = some q → recInv q) :=
  ⟨fun pid r env => startProcessing_inv pid r env,
   fun _ _ _ _ hp hq => processRoute_inv hp hq⟩

/-- C1, witness: the invariant-preservation part applied to a concrete
uploading record driven through the route. -/
theorem claim_C1_witness :
    recInv (startProcessing "w1" uploadingRec goodEnv).1 :=
  claim_C1.2 "w1" uploadingRec goodEnv (startProcessing "w1" uploadingRec goodEnv).1
    (by unfold recInv; decide) (by decide)

/-- C2, counterexample: the trigger route accepts a project whose status is
`failed` (it only rejects `processing` and `ready`), so a failed project is
re-run — here all the way to `ready` — contradicting "failed is terminal;
processing may be (re-)triggered only from `created` or `uploading`". -/
theorem claim_C2_counterexample :
    failedRec.status = Status.failed
      ∧ (processRoute "p2" (some failedRec) goodEnv).1 = RouteResult.started
      ∧ Event.setProcessing ∈ (processRoute "p2" (some failedRec) goodEnv).2.2
      ∧ (processRoute "p2" (some failedRec) goodEnv).2.1.map ProjectRec.status
          = some Status.ready := by
  decide

/-- C2 (amended): the trigger route starts the pipeline exactly when the
project's status is neither `processing` nor `ready` and at least two images
are counted — so `created`, `uploading` **and `failed`** projects can be
(re-)triggered; in particular a failed project with enough images is
transitioned back to `processing` by the trigger. -/
theorem claim_C2 : ∀ pid p env,
    ((processRoute pid (some p) env).1 = RouteResult.started ↔
      p.status ≠ Status.processing ∧ p.status ≠ Status.ready ∧ 2 ≤ p.imageCount)
    ∧ (p.status = Status.failed → 2 ≤ p.imageCount →
        Event.setProcessing ∈ (processRoute pid (some p) env).2.2) := by
  intro pid p env
  refine ⟨processRoute_started_iff pid p env, fun hf himg => ?_⟩
  simp only [processRoute, hf]
  rw [if_neg (by decide), if_neg (by decide), if_neg (by omega)]
  exact setProcessing_mem pid p env

/-- C2, witness: the amended characterization applied to the concrete failed
record. -/
theorem claim_C2_witness :
    Event.setProcessing ∈ (processRoute "w2" (some failedRec) goodEnv).2.2 :=
  (claim_C2 "w2" failedRec goodEnv).2 (by decide) (by decide)

/-- C3: the wait loop times out when the fuel (the number of polls the
3-hour ceiling admits) is exhausted, stops with completion handling exactly on
code 40, fails the project on 30 and 50, and continues on any other code; for
the status sequence `[queued, running, running, completed]` the run reaches
`ready`, transitions to ready exactly once and performs exactly one download
attempt sequence. -/
theorem claim_C3 :
    (∀ st i, pollLoopAux st 0 i = PollOutcome.timedOut)
    ∧ (∀ st fuel i, st i = 40 → pollLoopAux st (fuel + 1) i = PollOutcome.completed)
    ∧ (∀ st fuel i, st i = 30 → pollLoopAux st (fuel + 1) i = PollOutcome.odmFailed)
    ∧ (∀ st fuel i, st i = 50 → pollLoopAux st (fuel + 1) i = PollOutcome.odmCanceled)
    ∧ (∀ st fuel i, st i ≠ 40 → st i ≠ 30 → st i ≠ 50 →
        pollLoopAux st (fuel + 1) i = pollLoopAux st fuel (i + 1))
    ∧ (∀ pid r env, ¬ (env.files.filter isImageFile).length < 2 →
        (Event.downloadSeq ∈ (startProcessing pid r env).2 ↔
          pollLoop env.statuses = PollOutcome.completed))
    ∧ (∀ pid r env, pollLoop env.statuses = PollOutcome.odmFailed
          ∨ pollLoop env.statuses = PollOutcome.odmCanceled →
        (startProcessing pid r env).1.status = Status.failed)
    ∧ (∀ pid r env, pollLoop env.statuses = PollOutcome.timedOut →
        (startProcessing pid r env).1.status = Status.failed
        ∧ (¬ (env.files.filter isImageFile).length < 2 →
            (startProcessing pid r env).1.errorMessage = some "Processing timed out"))
    ∧ (startProcessing "p3" uploadingRec seqEnv).1.status = Status.ready
    ∧ (startProcessing "p3" uploadingRec seqEnv).2.count Event.setReady = 1
    ∧ (startProcessing "p3" uploadingRec seqEnv).2.count Event.downloadSeq = 1 :=
  ⟨pollAux_zero, pollAux_completed, pollAux_odmFailed, pollAux_odmCanceled, pollAux_step,
   downloadSeq_iff, startProcessing_pollFailed, startProcessing_timeout,
   by decide, by decide, by decide⟩

/-- C3, witness: each conditional component of C3 applied at concrete
inputs — a timed-out constant-`running` environment, the demo status sequence,
constant failed/canceled sequences, and a full run over
`[queued, running, running, completed]`. -/
theorem claim_C3_witness :
    pollLoopAux (fun _ => 20) 0 5 = PollOutcome.timedOut
      ∧ pollLoopAux demoStatuses 7 3 = PollOutcome.completed
      ∧ pollLoopAux (fun _ => 30) 7 0 = PollOutcome.odmFailed
      ∧ pollLoopAux (fun _ => 50) 7 0 = PollOutcome.odmCanceled
      ∧ pollLoopAux demoStatuses 8 2 = pollLoopAux demoStatuses 7 3
      ∧ (Event.downloadSeq ∈ (startProcessing "w3" uploadingRec seqEnv).2 ↔
          pollLoop seqEnv.statuses = PollOutcome.completed)
      ∧ (startProcessing "w3" uploadingRec failEnv).1.status = Status.failed
      ∧ (startProcessing "w3" uploadingRec timeoutEnv).1.status = Status.failed :=
  ⟨claim_C3.1 (fun _ => 20) 5,
   claim_C3.2.1 demoStatuses 6 3 (by decide),
   claim_C3.2.2.1 (fun _ => 30) 6 0 rfl,
   claim_C3.2.2.2.1 (fun _ => 50) 6 0 rfl,
   claim_C3.2.2.2.2.1 demoStatuses 7 2 (by decide) (by decide) (by decide),
   claim_C3.2.2.2.2.2.1 "w3" uploadingRec seqEnv (by decide),
   claim_C3.2.2.2.2.2.2.1 "w3" uploadingRec failEnv (Or.inl (by decide)),
   (claim_C3.2.2.2.2.2.2.2.1 "w3" uploadingRec timeoutEnv (by decide)).1⟩

/-- C4: with fewer than two image files in the upload directory,
`startProcessing` fails fast — the record ends `failed` with the validation
message and the trace contains neither a task-creation call nor any download
attempt. -/
theorem claim_C4 : ∀ pid r env, (env.files.filter isImageFile).length < 2 →
    (startProcessing pid r env).1.status = Status.failed
    ∧ (startProcessing pid r env).1.errorMessage = some "At least 2 images are required"
    ∧ Event.createTask ∉ (startProcessing pid r env).2
    ∧ Event.downloadSeq ∉ (startProcessing pid r env).2 := by
  intro pid r env h
  rw [startProcessing_validation h]
  exact ⟨rfl, rfl, by simp, by simp⟩

/-- C4, witness: the validation fast-path on an upload directory holding one
image. -/
theorem claim_C4_witness :
    (startProcessing "w4" uploadingRec fewEnv).1.status = Status.failed
    ∧ (startProcessing "w4" uploadingRec fewEnv).1.errorMessage
        = some "At least 2 images are required"
    ∧ Event.createTask ∉ (startProcessing "w4" uploadingRec fewEnv).2
    ∧ Event.downloadSeq ∉ (startProcessing "w4" uploadingRec fewEnv).2 :=
  claim_C4 "w4" uploadingRec fewEnv (by decide)

/-! ## Claims C5, C7, C8, C10 -/

/-- C5, counterexample: a response that passes header validation but whose
stream fails mid-write leaves the partial `.tmp` file on disk — the claim's
"on any failure the temporary file is removed" does not hold for stream
failures (the `pipeline` rejection has no cleanup handler). -/
theorem claim_C5_counterexample :
    ((downloadTaskAsset ⟨200, "image/tiff", 0, 500, false⟩ ⟨none, none⟩).1.isSome = true)
      ∧ (downloadTaskAsset ⟨200, "image/tiff", 0, 500, false⟩ ⟨none, none⟩).2.tmp ≠ none := by
  decide

/-- C5 (amended): a status ≥ 400 or a JSON/text content type makes the call
throw with the filesystem untouched; a destination file that was absent before
the call only ever appears with at least the 1024-byte minimum size; a failed
size sanity check removes the temporary file (and a failure never touches the
destination when the stream completed); on success the payload is renamed onto
the destination and the temporary file is gone.  A mid-stream write failure,
however, can leave the temporary file behind. -/
theorem claim_C5 : ∀ (resp : DlResp) (fs0 : DlFs),
    ((400 ≤ resp.status ∨ strIncludes resp.contentType "application/json" = true
        ∨ strIncludes resp.contentType "text" = true) →
      (downloadTaskAsset resp fs0).1.isSome = true ∧ (downloadTaskAsset resp fs0).2 = fs0)
    ∧ (fs0.dest = none → ∀ n, (downloadTaskAsset resp fs0).2.dest = some n → 1024 ≤ n)
    ∧ (resp.streamOk = true → (downloadTaskAsset resp fs0).1.isSome = true →
        (downloadTaskAsset resp fs0).2.tmp = none ∨ (downloadTaskAsset resp fs0).2 = fs0)
    ∧ ((downloadTaskAsset resp fs0).1 = none →
        (downloadTaskAsset resp fs0).2.dest = some resp.written
          ∧ 1024 ≤ resp.written ∧ (downloadTaskAsset resp fs0).2.tmp = none) := by
  intro resp fs0
  unfold downloadTaskAsset
  split_ifs with h1 h2 h3
  · refine ⟨fun _ => ⟨rfl, rfl⟩, fun hd n hn => ?_, fun _ _ => Or.inr rfl, fun hc => ?_⟩
    · rw [hd] at hn
      cases hn
    · cases hc
  · refine ⟨fun hv => absurd hv h1, fun hd n hn => ?_, fun hs _ => ?_, fun hc => ?_⟩
    · have hn' : fs0.dest = some n := hn
      rw [hd] at hn'
      cases hn'
    · rw [hs] at h2
      cases h2
    · cases hc
  · refine ⟨fun hv => absurd hv h1, fun hd n hn => ?_, fun _ _ => Or.inl rfl, fun hc => ?_⟩
    · have hn' : fs0.dest = some n := hn
      rw [hd] at hn'
      cases hn'
    · cases hc
  · have hw : 1024 ≤ resp.written := by
      rcases Nat.lt_or_ge resp.written 1024 with hlt | hge
      · exact absurd (Or.inl hlt) h3
      · exact hge
    refine ⟨fun hv => absurd hv h1, fun hd n hn => ?_, fun _ hfail => ?_, fun _ => ⟨rfl, hw, rfl⟩⟩
    · have hn' : some resp.written = some n := hn
      injection hn' with he
      exact he ▸ hw
    · simp at hfail

/-- C5, witness: a successful 4096-byte download lands at the destination
with the temporary file removed. -/
theorem claim_C5_witness :
    (downloadTaskAsset ⟨200, "image/tiff", 0, 4096, true⟩ ⟨none, none⟩).2.dest = some 4096
      ∧ 1024 ≤ 4096
      ∧ (downloadTaskAsset ⟨200, "image/tiff", 0, 4096, true⟩ ⟨none, none⟩).2.tmp = none :=
  (claim_C5 ⟨200, "image/tiff", 0, 4096, true⟩ ⟨none, none⟩).2.2.2 (by decide)

/-- C7: with no embedded CRS identifier but a native bounding box present,
the resolver returns the native box as the geographic bounds unconditionally,
and reports the CRS as `EPSG:4326` exactly when the box lies within longitude
±180 and latitude ±90 — otherwise the CRS stays null; this holds for every
corner-transformer the proj4 boundary could supply. -/
theorem claim_C7 : ∀ (proj : String → Rat × Rat → Option (Rat × Rat)) (b : GBounds),
    (resolveGeo proj none (some b)).2 = some b
    ∧ ((resolveGeo proj none (some b)).1 = some "EPSG:4326" ↔
        ((-180 : Rat) ≤ b.minX ∧ b.maxX ≤ 180 ∧ (-90 : Rat) ≤ b.minY ∧ b.maxY ≤ 90))
    ∧ (¬ ((-180 : Rat) ≤ b.minX ∧ b.maxX ≤ 180 ∧ (-90 : Rat) ≤ b.minY ∧ b.maxY ≤ 90) →
        (resolveGeo proj none (some b)).1 = none) := by
  intro proj b
  have hiff : looksLikeWgs84 b = true ↔
      ((-180 : Rat) ≤ b.minX ∧ b.maxX ≤ 180 ∧ (-90 : Rat) ≤ b.minY ∧ b.maxY ≤ 90) := by
    simp [looksLikeWgs84]
  simp only [resolveGeo]
  split_ifs with h
  · exact ⟨rfl, ⟨fun _ => hiff.mp h, fun _ => rfl⟩, fun hn => absurd (hiff.mp h) hn⟩
  · refine ⟨rfl, ⟨fun hc => ?_, fun hr => absurd (hiff.mpr hr) h⟩, fun _ => rfl⟩
    cases hc

/-- C7, witness: a CRS-less GeoTIFF whose native box is a plausible WGS84
box is reported as `EPSG:4326` with the box passed through. -/
theorem claim_C7_witness :
    (resolveGeo (fun _ _ => none) none
        (some { minX := 10, minY := 20, maxX := 11, maxY := 21 })).2
      = some { minX := 10, minY := 20, maxX := 11, maxY := 21 }
    ∧ (resolveGeo (fun _ _ => none) none
        (some { minX := 10, minY := 20, maxX := 11, maxY := 21 })).1 = some "EPSG:4326" :=
  ⟨(claim_C7 (fun _ _ => none) { minX := 10, minY := 20, maxX := 11, maxY := 21 }).1,
   ((claim_C7 (fun _ _ => none) { minX := 10, minY := 20, maxX := 11, maxY := 21 }).2.1).mpr
     (by norm_num)⟩

/-- C8: `ensureCog` always returns the input path; when conversion is
disabled it returns immediately with `converted = false` and no external
calls; a converter failure yields `converted = false` with the partial output
unlinked; and every error of the fallible body is absorbed into the
`(input, converted = false)` result, so the step never aborts the
pipeline. -/
theorem claim_C8 : ∀ (env : CogEnv) (input : String),
    (ensureCog env input).1.1 = input
    ∧ (env.enableCog = false → ensureCog env input = ((input, false), []))
    ∧ (env.enableCog = true → env.translateOk = false →
        (ensureCog env input).1.2 = false ∧ CogCall.unlinkOut ∈ (ensureCog env input).2)
    ∧ (∀ msg cs, ensureCogBody env input = (Except.error msg, cs) →
        (ensureCog env input).1 = (input, false)) := by
  intro env input
  refine ⟨?_, ?_, ?_, ?_⟩
  · unfold ensureCog
    split_ifs with he
    · rfl
    · unfold ensureCogBody
      rw [if_neg (cogOutputPath_ne input)]
      split_ifs with ht hr <;> rfl
  · intro he
    unfold ensureCog
    rw [if_pos he]
  · intro he ht
    unfold ensureCog ensureCogBody
    rw [if_neg (by simp [he]), if_neg (cogOutputPath_ne input), if_pos ht]
    exact ⟨rfl, by simp⟩
  · intro msg cs hbody
    unfold ensureCog
    split_ifs with he
    · rfl
    · rw [hbody]

/-- C8, witness: the disabled-path and converter-failure cases at concrete
inputs. -/
theorem claim_C8_witness :
    (ensureCog ⟨false, true, true⟩ "a.tif").1.1 = "a.tif"
    ∧ ensureCog ⟨false, true, true⟩ "a.tif" = (("a.tif", false), [])
    ∧ ((ensureCog ⟨true, false, true⟩ "b.tif").1.2 = false
        ∧ CogCall.unlinkOut ∈ (ensureCog ⟨true, false, true⟩ "b.tif").2) :=
  ⟨(claim_C8 ⟨false, true, true⟩ "a.tif").1,
   (claim_C8 ⟨false, true, true⟩ "a.tif").2.1 rfl,
   (claim_C8 ⟨true, false, true⟩ "b.tif").2.2.1 rfl rfl⟩

/-- C10: the sibling output path `parsed.name + '.cog.tif'` never equals
the input path (path parsing strips only the final extension, which therefore
never equals the two-dot suffix `.cog.tif`), so the "refusing to overwrite"
guard is unreachable: whenever conversion is enabled the converter is always
invoked. -/
theorem claim_C10 :
    (∀ p, cogOutputPath p ≠ p)
    ∧ (∀ (env : CogEnv) (p : String), env.enableCog = true →
        CogCall.translate p (cogOutputPath p) ∈ (ensureCog env p).2) := by
  refine ⟨cogOutputPath_ne, fun env p he => ?_⟩
  unfold ensureCog ensureCogBody
  rw [if_neg (by simp [he]), if_neg (cogOutputPath_ne p)]
  split_ifs with ht hr <;> simp

/-- C10, witness: the guard is passed and the converter invoked on a
concrete path. -/
theorem claim_C10_witness :
    cogOutputPath "orthophoto.tif" ≠ "orthophoto.tif"
    ∧ CogCall.translate "orthophoto.tif" (cogOutputPath "orthophoto.tif")
        ∈ (ensureCog ⟨true, true, true⟩ "orthophoto.tif").2 :=
  ⟨claim_C10.1 "orthophoto.tif", claim_C10.2 ⟨true, true, true⟩ "orthophoto.tif" rfl⟩

/-! ## Claim C6 -/

/-- Cumulative marker containment collapses `scoreAsset` to four values, one
per marker tier: `odm_orthophoto` implies `orthophoto` implies `ortho` as
substrings, so the cumulative score is 6, 3, 1 or 0. -/
theorem score_tier (a : String) :
    (scoreAsset a = 6 ∧ markerTier a = 3)
    ∨ (scoreAsset a = 3 ∧ markerTier a = 2)
    ∨ (scoreAsset a = 1 ∧ markerTier a = 1)
    ∨ (scoreAsset a = 0 ∧ markerTier a = 0) := by
  by_cases h1 : strIncludes (strLower a) "odm_orthophoto" = true
  · have h2 := strIncludes_trans
      (by decide : strIncludes "odm_orthophoto" "orthophoto" = true) h1
    have h3 := strIncludes_trans
      (by decide : strIncludes "orthophoto" "ortho" = true) h2
    left
    constructor <;> simp [scoreAsset, markerTier, h1, h2, h3]
  · by_cases h2 : strIncludes (strLower a) "orthophoto" = true
    · have h3 := strIncludes_trans
        (by decide : strIncludes "orthophoto" "ortho" = true) h2
      right; left
      constructor <;> simp [scoreAsset, markerTier, h1, h2, h3]
    · by_cases h3 : strIncludes (strLower a) "ortho" = true
      · right; right; left
        constructor <;> simp [scoreAsset, markerTier, h1, h2, h3]
      · right; right; right
        constructor <;> simp [scoreAsset, markerTier, h1, h2, h3]

theorem tier_le_of_score_le {a b : String} (h : scoreAsset b ≤ scoreAsset a) :
    markerTier b ≤ markerTier a := by
  rcases score_tier a with ⟨hsa, hta⟩ | ⟨hsa, hta⟩ | ⟨hsa, hta⟩ | ⟨hsa, hta⟩ <;>
    rcases score_tier b with ⟨hsb, htb⟩ | ⟨hsb, htb⟩ | ⟨hsb, htb⟩ | ⟨hsb, htb⟩ <;>
    rw [hsa, hsb] at h <;> rw [hta, htb] <;> omega

theorem keepByScore_total (x y : String) :
    keepByScore x y = true ∨ keepByScore y x = true := by
  unfold keepByScore
  rcases Nat.le_total (scoreAsset y) (scoreAsset x) with h | h
  · exact Or.inl (decide_eq_true h)
  · exact Or.inr (decide_eq_true h)

theorem keepByScore_trans (x y z : String)
    (hxy : keepByScore x y = true) (hyz : keepByScore y z = true) :
    keepByScore x z = true := by
  unfold keepByScore at *
  exact decide_eq_true (le_trans (of_decide_eq_true hyz) (of_decide_eq_true hxy))

theorem rank_pairwise (assets : List String) :
    (rankOrthophotoAssets assets).Pairwise (fun a b => markerTier b ≤ markerTier a) := by
  simp only [rankOrthophotoAssets]
  split_ifs with hempty
  · have hnil : (normalizedOf assets).filter isOrthoCandidate = [] := by
      rw [List.isEmpty_iff] at hempty
      exact (stableSortBy_eq_nil_iff _ _).mp hempty
    have hall : ∀ a ∈ (normalizedOf assets).filter hasRasterExt, markerTier a = 0 := by
      intro a ha
      rcases List.mem_filter.mp ha with ⟨hmem, hr⟩
      by_contra hne
      have hincl : strIncludes (strLower a) "ortho" = true := by
        by_cases h1 : strIncludes (strLower a) "odm_orthophoto" = true
        · exact strIncludes_trans (by decide)
            (strIncludes_trans (by decide : strIncludes "odm_orthophoto" "orthophoto" = true) h1)
        · by_cases h2 : strIncludes (strLower a) "orthophoto" = true
          · exact strIncludes_trans (by decide) h2
          · by_cases h3 : strIncludes (strLower a) "ortho" = true
            · exact h3
            · exact absurd (by simp [markerTier, h1, h2, h3]) hne
      have hc : a ∈ (normalizedOf assets).filter isOrthoCandidate :=
        List.mem_filter.mpr ⟨hmem, by simp [isOrthoCandidate, hincl, hr]⟩
      rw [hnil] at hc
      simp at hc
    refine List.pairwise_of_forall_mem_list (fun a ha b hb => ?_)
    rw [hall a ha, hall b hb]
  · have hp := pairwise_stableSortBy keepByScore keepByScore_total keepByScore_trans
      ((normalizedOf assets).filter isOrthoCandidate)
    exact hp.imp (fun hxy => tier_le_of_score_le (of_decide_eq_true hxy))

theorem rank_raster (assets : List String) :
    ∀ a ∈ rankOrthophotoAssets assets, hasRasterExt a = true := by
  intro a ha
  simp only [rankOrthophotoAssets] at ha
  split_ifs at ha with hempty
  · exact (List.mem_filter.mp ha).2
  · have hmem := (mem_stableSortBy _ _ _).mp ha
    have h2 := (List.mem_filter.mp hmem).2
    exact (Bool.and_eq_true _ _).mp h2 |>.2

/-- C6: the resolver's ranking is deterministic (a pure function of the
asset list); the ranked candidates are ordered by non-increasing marker tier,
so every name containing the exact canonical marker `odm_orthophoto` precedes
every name containing only the generic `orthophoto` marker, which precedes
names containing only the broad `ortho` marker; every proposed candidate has a
raster extension; when no marker-bearing raster candidate exists the ranking
falls back to all raster-extension names; and when even that is empty the
resolver proposes the fixed list of canonical path guesses. -/
theorem claim_C6 : ∀ assets : List String,
    (∀ l₂, assets = l₂ → resolveOrthophotoAssets assets = resolveOrthophotoAssets l₂)
    ∧ (rankOrthophotoAssets assets).Pairwise (fun a b => markerTier b ≤ markerTier a)
    ∧ (∀ a ∈ rankOrthophotoAssets assets, hasRasterExt a = true)
    ∧ ((normalizedOf assets).filter isOrthoCandidate = [] →
        rankOrthophotoAssets assets = (normalizedOf assets).filter hasRasterExt)
    ∧ (rankOrthophotoAssets assets = [] →
        resolveOrthophotoAssets assets = fallbackOrthophotoPaths) := by
  intro assets
  refine ⟨fun l₂ h => h ▸ rfl, rank_pairwise assets, rank_raster assets, ?_, ?_⟩
  · intro hnil
    simp only [rankOrthophotoAssets]
    rw [hnil]
    rfl
  · intro hranked
    simp only [resolveOrthophotoAssets, hranked]
    rfl

/-- C6, witness: the tier ordering evaluated on a concrete asset list mixing
all three marker tiers and a marker-free raster. -/
theorem claim_C6_witness :
    (rankOrthophotoAssets
        ["x_ortho.tiff", "odm_orthophoto.tif", "a.tif", "orthophoto.tif"]).Pairwise
      (fun a b => markerTier b ≤ markerTier a) :=
  (claim_C6 ["x_ortho.tiff", "odm_orthophoto.tif", "a.tif", "orthophoto.tif"]).2.1

/-! ## Tile coverage analyzer lemmas -/

theorem foldMax_ge_init (s : List Nat) (init : Int) :
    init ≤ s.foldl foldMaxStep init := by
  induction s generalizing init with
  | nil => simp
  | cons x s ih =>
    rw [List.foldl_cons]
    by_cases h : init < (x : Int)
    · rw [show foldMaxStep init x = (x : Int) from if_pos h]
      exact le_trans (le_of_lt h) (ih _)
    · rw [show foldMaxStep init x = init from if_neg h]
      exact ih _

theorem foldMax_mem_le (s : List Nat) (init : Int) :
    ∀ x ∈ s, (x : Int) ≤ s.foldl foldMaxStep init := by
  induction s generalizing init with
  | nil => intro x hx; cases hx
  | cons y s ih =>
    intro x hx
    rw [List.foldl_cons]
    rcases List.mem_cons.mp hx with rfl | hx2
    · by_cases h : init < (x : Int)
      · rw [show foldMaxStep init x = (x : Int) from if_pos h]
        exact foldMax_ge_init s _
      · rw [show foldMaxStep init x = init from if_neg h]
        exact le_trans (not_lt.mp h) (foldMax_ge_init s _)
    · exact ih _ x hx2

theorem foldMax_cases (s : List Nat) (init : Int) :
    s.foldl foldMaxStep init = init
    ∨ ∃ x ∈ s, s.foldl foldMaxStep init = (x : Int) := by
  induction s generalizing init with
  | nil => exact Or.inl rfl
  | cons y s ih =>
    rw [List.foldl_cons]
    by_cases h : init < (y : Int)
    · rw [show foldMaxStep init y = (y : Int) from if_pos h]
      rcases ih (y : Int) with h2 | ⟨x, hx, h2⟩
      · exact Or.inr ⟨y, by simp, h2⟩
      · exact Or.inr ⟨x, by simp [hx], h2⟩
    · rw [show foldMaxStep init y = init from if_neg h]
      rcases ih init with h2 | ⟨x, hx, h2⟩
      · exact Or.inl h2
      · exact Or.inr ⟨x, by simp [hx], h2⟩

theorem maxTileSize_ge_neg_one (s : List Nat) : (-1 : Int) ≤ maxTileSize s :=
  foldMax_ge_init s (-1)

theorem le_maxTileSize {s : List Nat} {x : Nat} (hx : x ∈ s) : (x : Int) ≤ maxTileSize s :=
  foldMax_mem_le s (-1) x hx

theorem maxTileSize_attained {s : List Nat} (h : maxTileSize s ≠ -1) :
    ∃ x ∈ s, (x : Int) = maxTileSize s := by
  rcases foldMax_cases s (-1) with h2 | ⟨x, hx, h2⟩
  · exact absurd h2 h
  · exact ⟨x, hx, h2.symm⟩

theorem levelHasData_iff (s : List Nat) :
    levelHasData s = true ↔ ∃ x ∈ s, 2048 < x := by
  simp [levelHasData, sizeThreshold]

theorem sortByZoom_pairwise (tree : List (Nat × List Nat)) :
    (sortByZoom tree).Pairwise (fun a b => a.1 ≤ b.1) := by
  have hp := pairwise_stableSortBy (fun b a : Nat × List Nat => decide (b.1 ≤ a.1))
    (fun x y => by
      rcases Nat.le_total x.1 y.1 with h | h
      · exact Or.inl (decide_eq_true h)
      · exact Or.inr (decide_eq_true h))
    (fun x y z hxy hyz =>
      decide_eq_true (le_trans (of_decide_eq_true hxy) (of_decide_eq_true hyz)))
    tree
  exact hp.imp (fun h => of_decide_eq_true h)

theorem mem_sortByZoom (tree : List (Nat × List Nat)) (x : Nat × List Nat) :
    x ∈ sortByZoom tree ↔ x ∈ tree :=
  mem_stableSortBy _ tree x

theorem zoomLoop_fst (l : List (Nat × List Nat)) :
    ∀ (vz : List Nat) (bz : Nat) (bs : Int),
      (zoomLoop l vz bz bs).1 = vz ++ (l.filter (fun e => levelHasData e.2)).map Prod.fst := by
  induction l with
  | nil => intro vz bz bs; simp [zoomLoop]
  | cons e l ih =>
    obtain ⟨z, s⟩ := e
    intro vz bz bs
    simp only [zoomLoop]
    by_cases hd : levelHasData s = true
    · rw [if_pos hd]
      split_ifs with hb <;> rw [ih] <;> simp [List.filter_cons, hd]
    · rw [if_neg hd]
      split_ifs with hb <;> rw [ih] <;> simp [List.filter_cons, hd]

theorem zoomLoop_spec : ∀ (l : List (Nat × List Nat)),
    l.Pairwise (fun a b => a.1 ≤ b.1) →
    ∀ (vz : List Nat) (bz : Nat) (bs : Int),
      bs ≤ (zoomLoop l vz bz bs).2.2
      ∧ (∀ e ∈ l, maxTileSize e.2 ≤ (zoomLoop l vz bz bs).2.2)
      ∧ (((zoomLoop l vz bz bs).2.2 = bs ∧ (zoomLoop l vz bz bs).2.1 = bz)
        ∨ (bs < (zoomLoop l vz bz bs).2.2
          ∧ (∃ s, ((zoomLoop l vz bz bs).2.1, s) ∈ l
              ∧ maxTileSize s = (zoomLoop l vz bz bs).2.2)
          ∧ (∀ e ∈ l, maxTileSize e.2 = (zoomLoop l vz bz bs).2.2 →
              (zoomLoop l vz bz bs).2.1 ≤ e.1))) := by
  intro l
  induction l with
  | nil =>
    intro _ vz bz bs
    exact ⟨le_refl _, fun e he => absurd he (List.not_mem_nil e), Or.inl ⟨rfl, rfl⟩⟩
  | cons e t ih =>
    obtain ⟨z, s⟩ := e
    intro hs vz bz bs
    rcases List.pairwise_cons.mp hs with ⟨hz, ht⟩
    simp only [zoomLoop]
    by_cases hb : bs < maxTileSize s
    · rw [if_pos hb]
      obtain ⟨i1, i2, i3⟩ :=
        ih ht (if levelHasData s = true then vz ++ [z] else vz) z (maxTileSize s)
      refine ⟨le_trans (le_of_lt hb) i1, ?_, ?_⟩
      · intro e he
        rcases List.mem_cons.mp he with rfl | he2
        · exact i1
        · exact i2 e he2
      · right
        refine ⟨lt_of_lt_of_le hb i1, ?_, ?_⟩
        · rcases i3 with ⟨hB, hbz⟩ | ⟨hlt, ⟨s', hmem, hms⟩, hall⟩
          · exact ⟨s, by rw [hbz]; exact List.mem_cons_self _ _, by rw [hB]⟩
          · exact ⟨s', List.mem_cons_of_mem _ hmem, hms⟩
        · intro e he hme
          rcases List.mem_cons.mp he with heq | he2
          · rcases i3 with ⟨hB, hbz⟩ | ⟨hlt, hex, hall⟩
            · rw [hbz, heq]
            · rw [heq] at hme
              exact absurd hme (ne_of_lt hlt)
          · rcases i3 with ⟨hB, hbz⟩ | ⟨hlt, hex, hall⟩
            · rw [hbz]
              exact hz e he2
            · exact hall e he2 hme
    · rw [if_neg hb]
      obtain ⟨i1, i2, i3⟩ :=
        ih ht (if levelHasData s = true then vz ++ [z] else vz) bz bs
      have hm_le : maxTileSize s ≤ bs := not_lt.mp hb
      refine ⟨i1, ?_, ?_⟩
      · intro e he
        rcases List.mem_cons.mp he with rfl | he2
        · exact le_trans hm_le i1
        · exact i2 e he2
      · rcases i3 with ⟨hB, hbz⟩ | ⟨hlt, ⟨s', hmem, hms⟩, hall⟩
        · exact Or.inl ⟨hB, hbz⟩
        · refine Or.inr ⟨hlt, ⟨s', List.mem_cons_of_mem _ hmem, hms⟩, ?_⟩
          intro e he hme
          rcases List.mem_cons.mp he with heq | he2
          · rw [heq] at hme
            exact absurd hme (ne_of_lt (lt_of_le_of_lt hm_le hlt))
          · exact hall e he2 hme

theorem lastD_mem : ∀ (l : List Nat) (d : Nat), l ≠ [] → lastD l d ∈ l := by
  intro l
  induction l with
  | nil => intro d h; exact absurd rfl h
  | cons a l ih =>
    intro d _
    cases l with
    | nil => simp [lastD]
    | cons b t =>
      have := ih d (by simp)
      simp only [lastD]
      exact List.mem_cons_of_mem a this

theorem lastD_ge : ∀ (l : List Nat) (d : Nat), l.Pairwise (fun a b => a ≤ b) →
    ∀ z ∈ l, z ≤ lastD l d := by
  intro l
  induction l with
  | nil => intro d _ z hz; cases hz
  | cons a l ih =>
    intro d hp z hz
    rcases List.pairwise_cons.mp hp with ⟨ha, hl⟩
    cases l with
    | nil =>
      rcases List.mem_cons.mp hz with rfl | h2
      · simp [lastD]
      · cases h2
    | cons b t =>
      simp only [lastD]
      rcases List.mem_cons.mp hz with rfl | h2
      · exact ha _ (lastD_mem (b :: t) d (by simp))
      · exact ih d hl z h2

/-! ## Claim C9 -/

/-- Membership in the valid-zoom list is exactly "some tile above the
threshold". -/
theorem validZooms_iff (tree : List (Nat × List Nat)) (z : Nat) :
    z ∈ validZoomsOf tree ↔ ∃ s, (z, s) ∈ tree ∧ ∃ x ∈ s, 2048 < x := by
  unfold validZoomsOf
  constructor
  · intro hz
    rcases List.mem_map.mp hz with ⟨e, he, hez⟩
    rcases List.mem_filter.mp he with ⟨hes, hed⟩
    refine ⟨e.2, ?_, (levelHasData_iff e.2).mp hed⟩
    have heq : (z, e.2) = e := by
      rw [← hez]
    rw [heq]
    exact (mem_sortByZoom tree e).mp hes
  · rintro ⟨s, hs, hx⟩
    exact List.mem_map.mpr ⟨(z, s),
      List.mem_filter.mpr ⟨(mem_sortByZoom tree _).mpr hs, (levelHasData_iff s).mpr hx⟩, rfl⟩

theorem validZooms_pairwise (tree : List (Nat × List Nat)) :
    (validZoomsOf tree).Pairwise (fun a b => a ≤ b) := by
  unfold validZoomsOf
  rw [List.pairwise_map]
  exact (sortByZoom_pairwise tree).filter _

theorem validZooms_eq_loop (tree : List (Nat × List Nat)) (z0 : Nat) :
    (zoomLoop (sortByZoom tree) [] z0 (-1)).1 = validZoomsOf tree := by
  rw [zoomLoop_fst]
  rfl

/-- Everything `getTileZoomRange` promises about a `some` result: min/max
bound the valid set when it is non-empty, the best level holds the globally
largest tile with ties resolved to the lowest level, and with no valid level
the reported span covers every on-disk level. -/
theorem getTileZoomRange_some {tree : List (Nat × List Nat)} {mn mx b : Nat}
    (h : getTileZoomRange tree = some (mn, mx, b)) :
    (validZoomsOf tree ≠ [] →
        mn ∈ validZoomsOf tree ∧ mx ∈ validZoomsOf tree
        ∧ (∀ z ∈ validZoomsOf tree, mn ≤ z ∧ z ≤ mx) ∧ b ∈ validZoomsOf tree)
    ∧ (∃ s, (b, s) ∈ tree ∧ (∀ e ∈ tree, maxTileSize e.2 ≤ maxTileSize s)
        ∧ (∀ e ∈ tree, maxTileSize e.2 = maxTileSize s → b ≤ e.1))
    ∧ (validZoomsOf tree = [] → ∀ e ∈ tree, mn ≤ e.1 ∧ e.1 ≤ mx) := by
  simp only [getTileZoomRange] at h
  rcases hsort : sortByZoom tree with _ | ⟨⟨z0, s0⟩, rest⟩
  · rw [hsort] at h
    cases h
  · rw [hsort] at h
    dsimp only at h
    have hPair : ((z0, s0) :: rest).Pairwise
        (fun a b : Nat × List Nat => a.1 ≤ b.1) := by
      rw [← hsort]
      exact sortByZoom_pairwise tree
    have hfst : (zoomLoop ((z0, s0) :: rest) [] z0 (-1)).1 = validZoomsOf tree := by
      rw [← hsort]
      exact validZooms_eq_loop tree z0
    obtain ⟨i1, i2, i3⟩ := zoomLoop_spec ((z0, s0) :: rest) hPair [] z0 (-1)
    rcases hvzeq : (zoomLoop ((z0, s0) :: rest) [] z0 (-1)).1 with _ | ⟨v0, vrest⟩
    · -- no valid zooms: timeout fallback branch
      rw [hvzeq] at h
      dsimp only at h
      have hvalid : validZoomsOf tree = [] := by
        rw [← hfst, hvzeq]
      split_ifs at h with hbs
      · simp only [Option.some.injEq, Prod.mk.injEq] at h
        obtain ⟨hmn, hmx, hb⟩ := h
        rcases i3 with ⟨hB, -⟩ | ⟨-, ⟨s', hmem, hms⟩, hall⟩
        · rw [hB] at hbs
          exact absurd hbs (lt_irrefl _)
        · refine ⟨fun hne => absurd hvalid hne, ?_, ?_⟩
          · refine ⟨s', ?_, ?_, ?_⟩
            · rw [← hb]
              exact (mem_sortByZoom tree _).mp (hsort ▸ hmem)
            · intro e he
              rw [hms]
              exact i2 e (hsort ▸ (mem_sortByZoom tree e).mpr he)
            · intro e he hme
              rw [← hb]
              exact hall e (hsort ▸ (mem_sortByZoom tree e).mpr he) (hme.trans hms)
          · intro _ e he
            have heL : e ∈ (z0, s0) :: rest := hsort ▸ (mem_sortByZoom tree e).mpr he
            constructor
            · rw [← hmn]
              rcases List.mem_cons.mp heL with heq | he2
              · rw [heq]
              · exact List.rel_of_pairwise_cons hPair he2
            · rw [← hmx]
              have hmem2 : e.1 ∈ ((z0, s0) :: rest).map Prod.fst :=
                List.mem_map.mpr ⟨e, heL, rfl⟩
              have hpm : (((z0, s0) :: rest).map Prod.fst).Pairwise (fun a b => a ≤ b) := by
                rw [List.pairwise_map]
                exact hPair
              exact lastD_ge _ z0 hpm e.1 hmem2
    · -- valid zooms present
      rw [hvzeq] at h
      dsimp only at h
      have hvalid : validZoomsOf tree = v0 :: vrest := by
        rw [← hfst, hvzeq]
      -- the loop best is itself valid, so the clamp keeps it
      have hBpos : (2048 : Int) < (zoomLoop ((z0, s0) :: rest) [] z0 (-1)).2.2 := by
        have hv0 : v0 ∈ validZoomsOf tree := by
          rw [hvalid]
          exact List.mem_cons_self _ _
        rcases (validZooms_iff tree v0).mp hv0 with ⟨s, hsmem, x, hxs, hx⟩
        have h1 : (x : Int) ≤ maxTileSize s := le_maxTileSize hxs
        have h2 : maxTileSize s ≤ (zoomLoop ((z0, s0) :: rest) [] z0 (-1)).2.2 :=
          i2 (v0, s) (hsort ▸ (mem_sortByZoom tree _).mpr hsmem)
        have hx' : (2048 : Int) < (x : Int) := by
          exact_mod_cast hx
        exact lt_of_lt_of_le (lt_of_lt_of_le hx' h1) h2
      rcases i3 with ⟨hB, -⟩ | ⟨-, ⟨s', hmem, hms⟩, hall⟩
      · rw [hB] at hBpos
        exact absurd hBpos (by decide)
      · have hbzValid : (zoomLoop ((z0, s0) :: rest) [] z0 (-1)).2.1 ∈ v0 :: vrest := by
          rw [← hvalid]
          have hne : maxTileSize s' ≠ -1 := by
            rw [hms]
            intro hc
            rw [hc] at hBpos
            exact absurd hBpos (by decide)
          rcases maxTileSize_attained hne with ⟨x, hxmem, hxeq⟩
          have hx2048 : 2048 < x := by
            have : (2048 : Int) < (x : Int) := by
              rw [hxeq, hms]
              exact hBpos
            exact_mod_cast this
          refine (validZooms_iff tree _).mpr ⟨s', ?_, x, hxmem, hx2048⟩
          exact (mem_sortByZoom tree _).mp (hsort ▸ hmem)
        have hcont : (v0 :: vrest).contains (zoomLoop ((z0, s0) :: rest) [] z0 (-1)).2.1 = true := by
          exact List.elem_iff.mpr hbzValid
        rw [if_pos hcont] at h
        simp only [Option.some.injEq, Prod.mk.injEq] at h
        obtain ⟨hmn, hmx, hb⟩ := h
        have hvp : (v0 :: vrest).Pairwise (fun a b => a ≤ b) := by
          rw [← hvalid]
          exact validZooms_pairwise tree
        refine ⟨fun _ => ?_, ?_, fun hc => absurd (hvalid.symm.trans hc) (by simp)⟩
        · refine ⟨?_, ?_, ?_, ?_⟩
          · rw [hvalid, ← hmn]
            exact List.mem_cons_self _ _
          · rw [hvalid, ← hmx]
            exact lastD_mem _ v0 (by simp)
          · intro z hz
            rw [hvalid] at hz
            constructor
            · rw [← hmn]
              rcases List.mem_cons.mp hz with heq | hz2
              · rw [heq]
              · exact List.rel_of_pairwise_cons hvp hz2
            · rw [← hmx]
              exact lastD_ge _ v0 hvp z hz
          · rw [hvalid, ← hb]
            exact hbzValid
        · refine ⟨s', ?_, ?_, ?_⟩
          · rw [← hb]
            exact (mem_sortByZoom tree _).mp (hsort ▸ hmem)
          · intro e he
            rw [hms]
            exact i2 e (hsort ▸ (mem_sortByZoom tree e).mpr he)
          · intro e he hme
            rw [← hb]
            exact hall e (hsort ▸ (mem_sortByZoom tree e).mpr he) (hme.trans hms)


theorem getTileZoomRange_none_of_empty {tree : List (Nat × List Nat)}
    (h : ∀ e ∈ tree, e.2 = []) : getTileZoomRange tree = none := by
  simp only [getTileZoomRange]
  rcases hsort : sortByZoom tree with _ | ⟨⟨z0, s0⟩, rest⟩
  · rfl
  · dsimp only
    have hall : ∀ e ∈ (z0, s0) :: rest, e.2 = ([] : List Nat) := by
      intro e he
      exact h e ((mem_sortByZoom tree e).mp (hsort ▸ he))
    have hvz : (zoomLoop ((z0, s0) :: rest) [] z0 (-1)).1 = [] := by
      rw [zoomLoop_fst]
      have hfil : ((z0, s0) :: rest).filter (fun e => levelHasData e.2) = [] := by
        rw [List.filter_eq_nil_iff]
        intro e he
        rw [hall e he]
        decide
      rw [hfil]
      rfl
    have hPair : ((z0, s0) :: rest).Pairwise
        (fun a b : Nat × List Nat => a.1 ≤ b.1) := by
      rw [← hsort]
      exact sortByZoom_pairwise tree
    obtain ⟨i1, i2, i3⟩ := zoomLoop_spec ((z0, s0) :: rest) hPair [] z0 (-1)
    have hB : (zoomLoop ((z0, s0) :: rest) [] z0 (-1)).2.2 = -1 := by
      rcases i3 with ⟨hB, -⟩ | ⟨hlt, ⟨s', hmem, hms⟩, -⟩
      · exact hB
      · exfalso
        have hs' : s' = [] := hall _ hmem
        rw [hs'] at hms
        rw [show maxTileSize [] = -1 from rfl] at hms
        rw [← hms] at hlt
        exact absurd hlt (lt_irrefl _)
    rw [hvz]
    dsimp only
    rw [hB, if_neg (lt_irrefl (-1 : Int))]

theorem getTileZoomRange_isSome {tree : List (Nat × List Nat)}
    (hne : tree ≠ []) (hex : ∃ e ∈ tree, e.2 ≠ []) :
    (getTileZoomRange tree).isSome = true := by
  simp only [getTileZoomRange]
  rcases hsort : sortByZoom tree with _ | ⟨⟨z0, s0⟩, rest⟩
  · exact absurd ((stableSortBy_eq_nil_iff _ _).mp hsort) hne
  · dsimp only
    have hPair : ((z0, s0) :: rest).Pairwise
        (fun a b : Nat × List Nat => a.1 ≤ b.1) := by
      rw [← hsort]
      exact sortByZoom_pairwise tree
    obtain ⟨i1, i2, i3⟩ := zoomLoop_spec ((z0, s0) :: rest) hPair [] z0 (-1)
    rcases hvzeq : (zoomLoop ((z0, s0) :: rest) [] z0 (-1)).1 with _ | ⟨v0, vrest⟩
    · dsimp only
      rcases hex with ⟨e, he, hne2⟩
      rcases List.exists_mem_of_ne_nil e.2 hne2 with ⟨x, hx⟩
      have h1 : (x : Int) ≤ maxTileSize e.2 := le_maxTileSize hx
      have h2 : maxTileSize e.2 ≤ (zoomLoop ((z0, s0) :: rest) [] z0 (-1)).2.2 :=
        i2 e (hsort ▸ (mem_sortByZoom tree e).mpr he)
      have hpos : (-1 : Int) < (zoomLoop ((z0, s0) :: rest) [] z0 (-1)).2.2 := by
        have h0 : (-1 : Int) < (x : Int) :=
          lt_of_lt_of_le (by norm_num) (Int.natCast_nonneg x)
        exact lt_of_lt_of_le h0 (le_trans h1 h2)
      rw [if_pos hpos]
      rfl
    · rfl

/-- C9: a zoom level is valid iff some tile beneath it exceeds the 2048-byte
threshold; for a reported `{min, max, best}` triple the min and max are the
smallest and largest valid levels and the best is itself valid; the best is
always the level holding the single largest observed tile with ties resolved
to the lowest such level (the re-clamp to the highest valid level, present in
the code, therefore never has to move it); when no tiles exist at all nothing
is reported; when no level is valid but some tile exists the full numeric
span of on-disk levels is reported; and on the synthetic 14–22 tree with only
16–18 above the threshold the result is `min = 16, max = 18, best = 17`. -/
theorem claim_C9 :
    (∀ tree z, z ∈ validZoomsOf tree ↔ ∃ s, (z, s) ∈ tree ∧ ∃ x ∈ s, 2048 < x)
    ∧ (∀ tree mn mx b, getTileZoomRange tree = some (mn, mx, b) →
        validZoomsOf tree ≠ [] →
        mn ∈ validZoomsOf tree ∧ mx ∈ validZoomsOf tree
          ∧ (∀ z ∈ validZoomsOf tree, mn ≤ z ∧ z ≤ mx) ∧ b ∈ validZoomsOf tree)
    ∧ (∀ tree mn mx b, getTileZoomRange tree = some (mn, mx, b) →
        ∃ s, (b, s) ∈ tree ∧ (∀ e ∈ tree, maxTileSize e.2 ≤ maxTileSize s)
          ∧ (∀ e ∈ tree, maxTileSize e.2 = maxTileSize s → b ≤ e.1))
    ∧ (∀ tree : List (Nat × List Nat), (∀ e ∈ tree, e.2 = []) → getTileZoomRange tree = none)
    ∧ (∀ tree mn mx b, getTileZoomRange tree = some (mn, mx, b) →
        validZoomsOf tree = [] → ∀ e ∈ tree, mn ≤ e.1 ∧ e.1 ≤ mx)
    ∧ (∀ tree : List (Nat × List Nat), tree ≠ [] → (∃ e ∈ tree, e.2 ≠ []) →
        (getTileZoomRange tree).isSome = true)
    ∧ getTileZoomRange demoTree = some (16, 18, 17) :=
  ⟨validZooms_iff,
   fun _ _ _ _ h hne => (getTileZoomRange_some h).1 hne,
   fun _ _ _ _ h => (getTileZoomRange_some h).2.1,
   fun _ h => getTileZoomRange_none_of_empty h,
   fun _ _ _ _ h => (getTileZoomRange_some h).2.2,
   fun _ h1 h2 => getTileZoomRange_isSome h1 h2,
   by decide⟩

theorem claim_C9_witness :
    (16 ∈ validZoomsOf demoTree ↔ ∃ s, (16, s) ∈ demoTree ∧ ∃ x ∈ s, 2048 < x)
    ∧ (16 ∈ validZoomsOf demoTree ∧ 18 ∈ validZoomsOf demoTree
        ∧ (∀ z ∈ validZoomsOf demoTree, 16 ≤ z ∧ z ≤ 18) ∧ 17 ∈ validZoomsOf demoTree) :=
  ⟨claim_C9.1 demoTree 16,
   claim_C9.2.1 demoTree 16 18 17 (by decide) (by decide)⟩


end AFK
